import Mathlib

/-!
Verification of the tableau simplex solver.

The solver works on a dense `(m+1) × (n+1)` tableau of exact rationals:
rows `0..m` are constraint rows (coefficients then RHS), row `m` is the
objective row.  The embedding below mirrors the source functions
`simplex_solver`, `find_pivot_column`, `find_pivot_row`, `pivot_operation`
and `extract_solution` one to one; machine floats are modelled by `ℚ` and
the unbounded `loop` by an explicit fuel parameter (running out of fuel is
reported as a distinct outcome, never confused with a real result).
-/

variable {m n : ℕ}

/-- A tableau with `m` constraint rows, one objective row and `n + 1` columns
(the last column holds the right-hand sides and the objective value). -/
abbrev Tableau (m n : ℕ) := Fin (m + 1) → Fin (n + 1) → ℚ

/-- First minimum of a list of keyed values: the element with the least
second component, the earliest one on ties.  This is the documented
behaviour of the iterator minimum used by the pivot-selection code. -/
def minFirst? {α : Type} : List (α × ℚ) → Option (α × ℚ)
  | [] => none
  | x :: xs =>
    match minFirst? xs with
    | none => some x
    | some y => if y.2 < x.2 then some y else some x

/-- Tableau construction: constraint coefficients in the top-left block,
RHS values in the last column, negated objective coefficients in the last
row, zero in the bottom-right corner. -/
def initTableau (c : Fin n → ℚ) (a : Fin m → Fin n → ℚ) (b : Fin m → ℚ) :
    Tableau m n := fun i j =>
  if hi : (i : ℕ) < m then
    if hj : (j : ℕ) < n then a ⟨i, hi⟩ ⟨j, hj⟩ else b ⟨i, hi⟩
  else
    if hj : (j : ℕ) < n then -c ⟨j, hj⟩ else 0

/-- Optimality test: every objective-row entry except the last one is
non-negative. -/
def isOptimal (t : Tableau m n) : Bool :=
  (List.finRange n).all fun j => decide (0 ≤ t (Fin.last m) j.castSucc)

/-- The candidate entering columns: all entries of the objective row
(the whole row, as sliced by the source) that are strictly negative,
keyed by their value. -/
def objCandidates (t : Tableau m n) : List (Fin (n + 1) × ℚ) :=
  ((List.finRange (n + 1)).map fun j => (j, t (Fin.last m) j)).filter
    fun p => decide (p.2 < 0)

/-- Pivot column selection: the first column holding the minimum strictly
negative entry of the objective row, none if no entry is negative. -/
def find_pivot_column (t : Tableau m n) : Option (Fin (n + 1)) :=
  (minFirst? (objCandidates t)).map Prod.fst

/-- The candidate leaving rows: constraint rows whose entry in the pivot
column is strictly positive, keyed by the quotient RHS / entry. -/
def rowCandidates (t : Tableau m n) (k : Fin (n + 1)) : List (Fin m × ℚ) :=
  ((((List.finRange m).map fun i => (i, t i.castSucc k)).filter
      fun p => decide (0 < p.2)).map
    fun p => (p.1, t p.1.castSucc (Fin.last n) / p.2))

/-- Pivot row selection (minimum quotient test): the first constraint row
attaining the least RHS / entry quotient among rows with a strictly
positive entry in the pivot column, none if there is no such row. -/
def find_pivot_row (t : Tableau m n) (k : Fin (n + 1)) : Option (Fin m) :=
  (minFirst? (rowCandidates t k)).map Prod.fst

/-- The pivot step.  A zero pivot entry makes the source abort
(`none` here); otherwise the pivot row is divided by the pivot entry and
the scaled pivot row times the old column entry is subtracted from every
other row, the factor being read before that row changes, the pivot row
after its normalization — exactly the source's in-place order. -/
def pivot_operation (t : Tableau m n) (r : Fin (m + 1)) (k : Fin (n + 1)) :
    Option (Tableau m n) :=
  if t r k = 0 then none
  else some fun i j =>
    if i = r then t r j / t r k
    else t i j - t i k * (t r j / t r k)

/-- The row scan of `extract_solution` for one column: walk the rows in
order keeping the first row holding a `1`; a second `1` or any other
non-zero entry stops the scan with failure (`none`).  On success the
result carries the recorded row, if any. -/
def scanRows (t : Tableau m n) (j : Fin (n + 1)) :
    List (Fin (m + 1)) → Option (Fin (m + 1)) → Option (Option (Fin (m + 1)))
  | [], acc => some acc
  | i :: rest, acc =>
    if t i j = 1 then
      if acc = none then scanRows t j rest (some i) else none
    else if t i j = 0 then
      scanRows t j rest acc
    else
      none

/-- Solution extraction: a variable whose column passes the scan with a
recorded row takes the RHS entry of that row, every other variable is 0.
The scan runs over all rows of the tableau, the objective row included,
just as the source loop `for i in 0..tableau.nrows()` does. -/
def extract_solution (t : Tableau m n) : Fin n → ℚ := fun j =>
  match scanRows t j.castSucc (List.finRange (m + 1)) none with
  | some (some i) => t i (Fin.last n)
  | _ => 0

/-- The objective functional `c · x`. -/
def dotProd (c x : Fin n → ℚ) : ℚ := ∑ j, c j * x j

/-- The solver's working data: the caller's constraint matrix and RHS
vector together with the owned tableau.  Only the tableau ever changes. -/
structure SolveState (m n : ℕ) where
  a : Fin m → Fin n → ℚ
  b : Fin m → ℚ
  tab : Tableau m n

/-- Outcome of the pivot loop, each carrying the final working state. -/
inductive LoopOut (m n : ℕ) where
  | done (s : SolveState m n)
  | noCol (s : SolveState m n)
  | unbounded (s : SolveState m n)
  | panicked (s : SolveState m n)
  | fuelOut (s : SolveState m n)

/-- The working state carried by a loop outcome. -/
def stateOf : LoopOut m n → SolveState m n
  | .done s => s
  | .noCol s => s
  | .unbounded s => s
  | .panicked s => s
  | .fuelOut s => s

/-- Whether a loop outcome is the fuel-exhaustion artifact. -/
def isFuelOut : LoopOut m n → Bool
  | .fuelOut _ => true
  | _ => false

/-- The solver's pivot loop: stop successfully when the tableau is
optimal, otherwise select the entering column and the leaving row and
pivot; a missing leaving row reports unboundedness, a missing entering
column propagates as the source's early `none` return, a zero pivot
aborts. -/
def simplexLoop : ℕ → SolveState m n → LoopOut m n
  | 0, s => .fuelOut s
  | fuel + 1, s =>
    if isOptimal s.tab then .done s
    else
      match find_pivot_column s.tab with
      | none => .noCol s
      | some k =>
        match find_pivot_row s.tab k with
        | none => .unbounded s
        | some r =>
          match pivot_operation s.tab r.castSucc k with
          | none => .panicked s
          | some t2 => simplexLoop fuel ⟨s.a, s.b, t2⟩

/-- Observable result of `simplex_solver`: a solution with its objective
value, the `None` return, a fatal abort, or fuel exhaustion (an artifact
of the embedding, reported separately). -/
inductive SolverOut (n : ℕ) where
  | ok (sol : Fin n → ℚ) (obj : ℚ)
  | none
  | panicked
  | fuelOut

/-- Projection to the successful result, if any. -/
def SolverOut.okSol {n : ℕ} : SolverOut n → Option ((Fin n → ℚ) × ℚ)
  | .ok s o => some (s, o)
  | _ => Option.none

/-- The simplex solver: build the tableau, run the pivot loop, then read
off the solution vector and the bottom-right objective value. -/
def simplex_solver (fuel : ℕ) (c : Fin n → ℚ) (a : Fin m → Fin n → ℚ)
    (b : Fin m → ℚ) : SolverOut n :=
  match simplexLoop fuel ⟨a, b, initTableau c a b⟩ with
  | .done s => .ok (extract_solution s.tab) (s.tab (Fin.last m) (Fin.last n))
  | .noCol _ => .none
  | .unbounded _ => .none
  | .panicked _ => .panicked
  | .fuelOut _ => .fuelOut

/-- Pivot column selection as the specification words it: only the
objective-row entries excluding the last one are examined, with the same
first-minimum rule.  Kept for comparison with `find_pivot_column`. -/
def specPivotColumnExcludingLast (t : Tableau m n) : Option (Fin (n + 1)) :=
  (minFirst? (((List.finRange n).map
      fun j => (j.castSucc, t (Fin.last m) j.castSucc)).filter
    fun p => decide (p.2 < 0))).map Prod.fst

/-- The extraction value as the specification words it: a column is basic
iff the constraint rows (objective row excluded) hold exactly one
non-zero entry and that entry is `1`; a basic variable takes the RHS of
that row, every other variable is `0`.  Kept for comparison with
`extract_solution`. -/
def specExtractValueConstraint (t : Tableau m n) (j : Fin n) : ℚ :=
  match (List.finRange m).filter
      (fun i => decide (t i.castSucc j.castSucc ≠ 0)) with
  | [i] => if t i.castSucc j.castSucc = 1 then t i.castSucc (Fin.last n) else 0
  | _ => 0

/-! Concrete problem instances used below. -/

/-- Objective vector of the consistency counterexample. -/
def cC1 : Fin 2 → ℚ := ![1, -1]

/-- Constraint matrix of the consistency counterexample. -/
def aC1 : Fin 1 → Fin 2 → ℚ := ![![1, 0]]

/-- RHS vector of the consistency counterexample. -/
def bC1 : Fin 1 → ℚ := ![1]

/-- A tableau whose column 0 is a unit column only thanks to the
objective row: one constraint row `[0, 5]` and objective row `[1, 7]`. -/
def tC2 : Tableau 1 1 := ![![0, 5], ![1, 7]]

/-- A tableau whose only negative objective-row entry is the last
(objective-value) cell: objective row `[0, -1]`, no constraint rows. -/
def tC3 : Tableau 0 1 := ![![0, -1]]

/-- Tableau for the pivot-row selection check: quotients 2 and 1. -/
def tC4w : Tableau 2 1 := ![![2, 4], ![1, 1], ![0, 0]]

/-- Objective vector of an unbounded problem. -/
def cU : Fin 1 → ℚ := ![1]

/-- Constraint matrix of an unbounded problem (no positive entry in the
entering column). -/
def aU : Fin 1 → Fin 1 → ℚ := ![![-1]]

/-- RHS vector of the unbounded problem. -/
def bU : Fin 1 → ℚ := ![1]

/-- Objective vector of the objective-row invariant counterexample. -/
def cC6 : Fin 1 → ℚ := ![1]

/-- Constraint matrix of the objective-row invariant counterexample. -/
def aC6 : Fin 1 → Fin 1 → ℚ := ![![1]]

/-- RHS vector of the objective-row invariant counterexample. -/
def bC6 : Fin 1 → ℚ := ![1]

/-- Tableau for the pivot-step check, pivot entry 2. -/
def tC7 : Tableau 1 1 := ![![2, 4], ![1, 3]]

/-- Tableau with a zero pivot entry. -/
def tC8 : Tableau 0 0 := ![![0]]

/-- Objective vector of the degenerate concrete scenario. -/
def c9 : Fin 7 → ℚ := ![2, -3, 0, -5, 0, 0, 0]

/-- Constraint matrix of the degenerate concrete scenario. -/
def a9 : Fin 3 → Fin 7 → ℚ :=
  ![![-1, 1, -1, -1, 1, 0, 0], ![2, 4, 0, 0, 0, 1, 0], ![0, 0, 1, 1, 0, 0, 1]]

/-- RHS vector of the degenerate concrete scenario. -/
def b9 : Fin 3 → ℚ := ![8, 0, 3]

/-- The solution the solver reaches on the degenerate scenario. -/
def sol9 : Fin 7 → ℚ := ![0, 0, 0, 0, 8, 0, 3]

/-! Driving the loop through one explicit step. -/

/-- An optimal tableau stops the loop at once. -/
lemma loop_step_done (s : SolveState m n) (fuel : ℕ)
    (h : isOptimal s.tab = true) : simplexLoop (fuel + 1) s = .done s := by
  simp [simplexLoop, h]

/-- One successful pivot iteration of the loop. -/
lemma loop_step_pivot (s : SolveState m n) (k : Fin (n + 1)) (r : Fin m)
    (t2 : Tableau m n) (fuel : ℕ)
    (h1 : isOptimal s.tab = false)
    (h2 : find_pivot_column s.tab = some k)
    (h3 : find_pivot_row s.tab k = some r)
    (h4 : pivot_operation s.tab r.castSucc k = some t2) :
    simplexLoop (fuel + 1) s = simplexLoop fuel ⟨s.a, s.b, t2⟩ := by
  simp [simplexLoop, h1, h2, h3, h4]

/-- The loop result determines the solver result. -/
lemma solver_of_loop (fuel : ℕ) (c : Fin n → ℚ) (a : Fin m → Fin n → ℚ)
    (b : Fin m → ℚ) (s2 : SolveState m n)
    (h : simplexLoop fuel ⟨a, b, initTableau c a b⟩ = .done s2) :
    simplex_solver fuel c a b =
      .ok (extract_solution s2.tab) (s2.tab (Fin.last m) (Fin.last n)) := by
  unfold simplex_solver
  rw [h]

/-! The run on the consistency counterexample input. -/

/-- Initial tableau of the consistency counterexample. -/
def tC1a : Tableau 1 2 := ![![1, 0, 1], ![-1, 1, 0]]

/-- Tableau of the consistency counterexample after its single pivot. -/
def tC1b : Tableau 1 2 := ![![1, 0, 1], ![0, 1, 1]]

lemma initC1 : initTableau cC1 aC1 bC1 = tC1a := by decide

lemma pivotC1 : pivot_operation tC1a ((0 : Fin 1).castSucc) 0 = some tC1b := by
  rw [pivot_operation, if_neg (by decide)]
  refine congrArg some ?_
  funext i j
  fin_cases i <;> fin_cases j <;> norm_num [tC1a, tC1b]

lemma loopC1 :
    simplexLoop 3 (⟨aC1, bC1, initTableau cC1 aC1 bC1⟩ : SolveState 1 2) =
      .done ⟨aC1, bC1, tC1b⟩ := by
  rw [initC1,
    loop_step_pivot _ 0 0 tC1b 2 (by decide) (by decide) (by decide) pivotC1,
    loop_step_done _ 1 (by decide)]

lemma solverC1 :
    simplex_solver 3 cC1 aC1 bC1 = .ok (extract_solution tC1b) 1 := by
  have h := solver_of_loop 3 cC1 aC1 bC1 ⟨aC1, bC1, tC1b⟩ loopC1
  rw [h]
  congr 1

/-! Properties of the first-minimum selection. -/

lemma minFirst?_cons {α : Type} (a : α × ℚ) (as : List (α × ℚ)) :
    minFirst? (a :: as) =
      match minFirst? as with
      | none => some a
      | some y => if y.2 < a.2 then some y else some a := rfl

lemma minFirst?_eq_none_iff {α : Type} (l : List (α × ℚ)) :
    minFirst? l = none ↔ l = [] := by
  cases l with
  | nil => simp [minFirst?]
  | cons x xs =>
    rw [minFirst?_cons]
    cases h : minFirst? xs with
    | none => simp
    | some y =>
      by_cases hy : y.2 < x.2 <;> simp [hy]

lemma minFirst?_le {α : Type} :
    ∀ (l : List (α × ℚ)) (x : α × ℚ),
      minFirst? l = some x → ∀ y ∈ l, x.2 ≤ y.2 := by
  intro l
  induction l with
  | nil => intro x hx; simp [minFirst?] at hx
  | cons a as ih =>
    intro x hx
    cases h : minFirst? as with
    | none =>
      simp only [minFirst?_cons, h] at hx
      obtain rfl : a = x := by simpa using hx
      have : as = [] := (minFirst?_eq_none_iff as).mp h
      subst this
      intro y hy
      obtain rfl : y = a := by simpa using hy
      exact le_refl _
    | some y0 =>
      simp only [minFirst?_cons, h] at hx
      by_cases hlt : y0.2 < a.2
      · rw [if_pos hlt] at hx
        obtain rfl : y0 = x := by simpa using hx
        intro y hy
        rcases List.mem_cons.mp hy with rfl | hy2
        · exact le_of_lt hlt
        · exact ih y0 h y hy2
      · rw [if_neg hlt] at hx
        obtain rfl : a = x := by simpa using hx
        intro y hy
        rcases List.mem_cons.mp hy with rfl | hy2
        · exact le_refl _
        · exact le_trans (le_of_not_lt hlt) (ih y0 h y hy2)

lemma minFirst?_split {α : Type} :
    ∀ (l : List (α × ℚ)) (x : α × ℚ), minFirst? l = some x →
      ∃ l1 l2, l = l1 ++ x :: l2 ∧ ∀ y ∈ l1, x.2 < y.2 := by
  intro l
  induction l with
  | nil => intro x hx; simp [minFirst?] at hx
  | cons a as ih =>
    intro x hx
    cases h : minFirst? as with
    | none =>
      simp only [minFirst?_cons, h] at hx
      obtain rfl : a = x := by simpa using hx
      exact ⟨[], as, rfl, by simp⟩
    | some y0 =>
      simp only [minFirst?_cons, h] at hx
      by_cases hlt : y0.2 < a.2
      · rw [if_pos hlt] at hx
        obtain rfl : y0 = x := by simpa using hx
        obtain ⟨l1, l2, heq, hl1⟩ := ih y0 h
        subst heq
        refine ⟨a :: l1, l2, rfl, ?_⟩
        intro y hy
        rcases List.mem_cons.mp hy with rfl | hy2
        · exact hlt
        · exact hl1 y hy2
      · rw [if_neg hlt] at hx
        obtain rfl : a = x := by simpa using hx
        exact ⟨[], as, rfl, by simp⟩

lemma minFirst?_mem {α : Type} (l : List (α × ℚ)) (x : α × ℚ)
    (hx : minFirst? l = some x) : x ∈ l := by
  obtain ⟨l1, l2, rfl, -⟩ := minFirst?_split l x hx
  simp

/-- Full characterization of the first minimum over a list whose keys are
strictly increasing: the result is a member, its value is a lower bound,
and every earlier key carries a strictly larger value. -/
lemma minFirst?_char {α : Type} [LinearOrder α] (l : List (α × ℚ))
    (hp : l.Pairwise fun p q => p.1 < q.1) (x : α × ℚ)
    (hx : minFirst? l = some x) :
    x ∈ l ∧ (∀ y ∈ l, x.2 ≤ y.2) ∧ ∀ y ∈ l, y.1 < x.1 → x.2 < y.2 := by
  obtain ⟨l1, l2, heq, hl1⟩ := minFirst?_split l x hx
  subst heq
  refine ⟨by simp, minFirst?_le _ x hx, ?_⟩
  intro y hy hyx
  rcases List.mem_append.mp hy with h1 | h2
  · exact hl1 y h1
  · rcases List.mem_cons.mp h2 with rfl | h2b
    · exact absurd hyx (lt_irrefl _)
    · obtain ⟨-, hp2, -⟩ := List.pairwise_append.mp hp
      have hxy : x.1 < y.1 := (List.pairwise_cons.mp hp2).1 y h2b
      exact absurd (lt_trans hxy hyx) (lt_irrefl _)

/-! Characterization of pivot row selection. -/

lemma mem_rowCandidates (t : Tableau m n) (k : Fin (n + 1)) (p : Fin m × ℚ) :
    p ∈ rowCandidates t k ↔
      0 < t p.1.castSucc k ∧
        p.2 = t p.1.castSucc (Fin.last n) / t p.1.castSucc k := by
  obtain ⟨i, v⟩ := p
  unfold rowCandidates
  dsimp only
  constructor
  · intro hp
    obtain ⟨q, hq, hmap⟩ := List.mem_map.mp hp
    obtain ⟨hq1, hq2⟩ := List.mem_filter.mp hq
    obtain ⟨i0, -, hq3⟩ := List.mem_map.mp hq1
    subst hq3
    obtain ⟨rfl, rfl⟩ := Prod.mk.injEq .. ▸ hmap
    exact ⟨by simpa using hq2, rfl⟩
  · rintro ⟨h1, rfl⟩
    refine List.mem_map.mpr ⟨(i, t i.castSucc k), ?_, rfl⟩
    exact List.mem_filter.mpr
      ⟨List.mem_map.mpr ⟨i, List.mem_finRange _, rfl⟩, by simpa using h1⟩

lemma rowCandidates_pairwise (t : Tableau m n) (k : Fin (n + 1)) :
    (rowCandidates t k).Pairwise fun p q => p.1 < q.1 := by
  unfold rowCandidates
  rw [List.pairwise_map]
  apply List.Pairwise.filter
  rw [List.pairwise_map]
  simpa using List.pairwise_lt_finRange m

lemma find_pivot_row_none_iff (t : Tableau m n) (k : Fin (n + 1)) :
    find_pivot_row t k = none ↔ ∀ i : Fin m, ¬0 < t i.castSucc k := by
  unfold find_pivot_row
  rw [Option.map_eq_none', minFirst?_eq_none_iff]
  constructor
  · intro h i hi
    have hmem : (i, t i.castSucc (Fin.last n) / t i.castSucc k) ∈
        rowCandidates t k := (mem_rowCandidates t k _).mpr ⟨hi, rfl⟩
    rw [h] at hmem
    simp at hmem
  · intro h
    rw [List.eq_nil_iff_forall_not_mem]
    intro p hp
    exact h p.1 ((mem_rowCandidates t k p).mp hp).1

lemma find_pivot_row_some_iff (t : Tableau m n) (k : Fin (n + 1)) (r : Fin m) :
    find_pivot_row t k = some r ↔
      0 < t r.castSucc k ∧
      (∀ i : Fin m, 0 < t i.castSucc k →
        t r.castSucc (Fin.last n) / t r.castSucc k ≤
          t i.castSucc (Fin.last n) / t i.castSucc k) ∧
      (∀ i : Fin m, i < r → 0 < t i.castSucc k →
        t r.castSucc (Fin.last n) / t r.castSucc k <
          t i.castSucc (Fin.last n) / t i.castSucc k) := by
  constructor
  · intro h
    unfold find_pivot_row at h
    cases hm : minFirst? (rowCandidates t k) with
    | none => rw [hm] at h; simp at h
    | some x =>
      rw [hm] at h
      have hx1 : x.1 = r := by simpa using h
      obtain ⟨hmem, hmin, hfirst⟩ :=
        minFirst?_char _ (rowCandidates_pairwise t k) x hm
      obtain ⟨hpos, hval⟩ := (mem_rowCandidates t k x).mp hmem
      subst hx1
      refine ⟨hpos, ?_, ?_⟩
      · intro i hi
        have := hmin (i, t i.castSucc (Fin.last n) / t i.castSucc k)
          ((mem_rowCandidates t k _).mpr ⟨hi, rfl⟩)
        rw [← hval]
        exact this
      · intro i hilt hi
        have := hfirst (i, t i.castSucc (Fin.last n) / t i.castSucc k)
          ((mem_rowCandidates t k _).mpr ⟨hi, rfl⟩) hilt
        rw [← hval]
        exact this
  · rintro ⟨hpos, hmin, hfirst⟩
    have hmem : (r, t r.castSucc (Fin.last n) / t r.castSucc k) ∈
        rowCandidates t k := (mem_rowCandidates t k _).mpr ⟨hpos, rfl⟩
    cases hm : minFirst? (rowCandidates t k) with
    | none =>
      rw [minFirst?_eq_none_iff] at hm
      rw [hm] at hmem
      simp at hmem
    | some x =>
      obtain ⟨hx_mem, hx_min, hx_first⟩ :=
        minFirst?_char _ (rowCandidates_pairwise t k) x hm
      obtain ⟨hxpos, hxval⟩ := (mem_rowCandidates t k x).mp hx_mem
      have hx1 : x.1 = r := by
        rcases lt_trichotomy x.1 r with hlt | heq | hgt
        · have h1 := hfirst x.1 hlt hxpos
          have h2 := hx_min _ hmem
          rw [hxval] at h2
          exact absurd (lt_of_lt_of_le h1 h2) (lt_irrefl _)
        · exact heq
        · have h1 := hx_first _ hmem hgt
          have h2 := hmin x.1 hxpos
          rw [← hxval] at h2
          exact absurd (lt_of_le_of_lt h2 h1) (lt_irrefl _)
      unfold find_pivot_row
      rw [hm]
      simp [hx1]

/-! Characterization of the extraction scan. -/

lemma scanRows_acc_some (t : Tableau m n) (j : Fin (n + 1)) :
    ∀ (l : List (Fin (m + 1))) (i0 k : Fin (m + 1)),
      scanRows t j l (some i0) = some (some k) ↔
        k = i0 ∧ ∀ i ∈ l, t i j = 0 := by
  intro l
  induction l with
  | nil =>
    intro i0 k
    simp [scanRows, eq_comm]
  | cons a rest ih =>
    intro i0 k
    by_cases h1 : t a j = 1
    · have hred : scanRows t j (a :: rest) (some i0) = none := by
        simp [scanRows, h1]
      rw [hred]
      constructor
      · intro h
        exact absurd h (by simp)
      · rintro ⟨rfl, hall⟩
        have := hall a (List.mem_cons_self a rest)
        rw [h1] at this
        exact absurd this one_ne_zero
    · by_cases h0 : t a j = 0
      · have hred : scanRows t j (a :: rest) (some i0) =
            scanRows t j rest (some i0) := by
          simp [scanRows, h1, h0]
        rw [hred, ih i0 k]
        constructor
        · rintro ⟨rfl, hall⟩
          refine ⟨rfl, ?_⟩
          intro i hi
          rcases List.mem_cons.mp hi with rfl | h2
          · exact h0
          · exact hall i h2
        · rintro ⟨rfl, hall⟩
          exact ⟨rfl, fun i hi => hall i (List.mem_cons_of_mem a hi)⟩
      · have hred : scanRows t j (a :: rest) (some i0) = none := by
          simp [scanRows, h1, h0]
        rw [hred]
        constructor
        · intro h
          exact absurd h (by simp)
        · rintro ⟨rfl, hall⟩
          exact (h0 (hall a (List.mem_cons_self a rest))).elim

lemma scanRows_none_some (t : Tableau m n) (j : Fin (n + 1)) :
    ∀ (l : List (Fin (m + 1))), l.Nodup → ∀ k : Fin (m + 1),
      scanRows t j l none = some (some k) ↔
        k ∈ l ∧ t k j = 1 ∧ ∀ i ∈ l, i ≠ k → t i j = 0 := by
  intro l
  induction l with
  | nil =>
    intro _ k
    simp [scanRows]
  | cons a rest ih =>
    intro hnd k
    obtain ⟨ha, hnd2⟩ := List.nodup_cons.mp hnd
    by_cases h1 : t a j = 1
    · have hred : scanRows t j (a :: rest) none =
          scanRows t j rest (some a) := by
        simp [scanRows, h1]
      rw [hred, scanRows_acc_some]
      constructor
      · rintro ⟨hka, hall⟩
        rw [hka]
        refine ⟨List.mem_cons_self a rest, h1, ?_⟩
        intro i hi hne
        rcases List.mem_cons.mp hi with he | h2
        · exact absurd he hne
        · exact hall i h2
      · rintro ⟨hk, hk1, hall⟩
        rcases List.mem_cons.mp hk with hka | hk2
        · refine ⟨hka, ?_⟩
          intro i hi
          refine hall i (List.mem_cons_of_mem a hi) ?_
          intro he
          exact ha ((he.trans hka) ▸ hi)
        · have hne : a ≠ k := fun he => ha (he ▸ hk2)
          have hz := hall a (List.mem_cons_self a rest) hne
          rw [h1] at hz
          exact absurd hz one_ne_zero
    · by_cases h0 : t a j = 0
      · have hred : scanRows t j (a :: rest) none =
            scanRows t j rest none := by
          simp [scanRows, h1, h0]
        rw [hred, ih hnd2 k]
        constructor
        · rintro ⟨hk, hk1, hall⟩
          refine ⟨List.mem_cons_of_mem a hk, hk1, ?_⟩
          intro i hi hne
          rcases List.mem_cons.mp hi with he | h2
          · rw [he]; exact h0
          · exact hall i h2 hne
        · rintro ⟨hk, hk1, hall⟩
          rcases List.mem_cons.mp hk with hka | hk2
          · rw [hka, h0] at hk1
            exact absurd hk1.symm one_ne_zero
          · exact ⟨hk2, hk1, fun i hi hne =>
              hall i (List.mem_cons_of_mem a hi) hne⟩
      · have hred : scanRows t j (a :: rest) none = none := by
          simp [scanRows, h1, h0]
        rw [hred]
        constructor
        · intro h
          exact absurd h (by simp)
        · rintro ⟨hk, hk1, hall⟩
          rcases List.mem_cons.mp hk with hka | hk2
          · exact (h1 (hka ▸ hk1)).elim
          · exact (h0 (hall a (List.mem_cons_self a rest)
              (fun he => ha (he ▸ hk2)))).elim

/-- A column that is a unit column over all rows (objective row included)
is read as basic: the variable takes the RHS of the row holding the 1. -/
lemma extract_eq_of_unit (t : Tableau m n) (j : Fin n) (i : Fin (m + 1))
    (h1 : t i j.castSucc = 1)
    (hz : ∀ i2 : Fin (m + 1), i2 ≠ i → t i2 j.castSucc = 0) :
    extract_solution t j = t i (Fin.last n) := by
  have hs : scanRows t j.castSucc (List.finRange (m + 1)) none =
      some (some i) :=
    (scanRows_none_some t j.castSucc _ (List.nodup_finRange _) i).mpr
      ⟨List.mem_finRange i, h1, fun i2 _ hne => hz i2 hne⟩
  simp [extract_solution, hs]

/-- A column that is not a unit column over all rows yields value 0. -/
lemma extract_eq_zero_of_no_unit (t : Tableau m n) (j : Fin n)
    (h : ∀ i : Fin (m + 1),
      ¬(t i j.castSucc = 1 ∧ ∀ i2 : Fin (m + 1), i2 ≠ i → t i2 j.castSucc = 0)) :
    extract_solution t j = 0 := by
  cases hres : scanRows t j.castSucc (List.finRange (m + 1)) none with
  | none => simp [extract_solution, hres]
  | some o =>
    cases o with
    | none => simp [extract_solution, hres]
    | some i =>
      obtain ⟨-, h1, hz⟩ :=
        (scanRows_none_some t j.castSucc _ (List.nodup_finRange _) i).mp hres
      exact absurd ⟨h1, fun i2 hne => hz i2 (List.mem_finRange i2) hne⟩ (h i)

/-! Entries of the freshly constructed tableau. -/

lemma init_apply_a (c : Fin n → ℚ) (a : Fin m → Fin n → ℚ) (b : Fin m → ℚ)
    (i : Fin m) (j : Fin n) :
    initTableau c a b i.castSucc j.castSucc = a i j := by
  have hi : ((i.castSucc : Fin (m + 1)) : ℕ) < m := by simp
  have hj : ((j.castSucc : Fin (n + 1)) : ℕ) < n := by simp
  have e1 : (⟨((i.castSucc : Fin (m + 1)) : ℕ), hi⟩ : Fin m) = i := by
    ext; simp
  have e2 : (⟨((j.castSucc : Fin (n + 1)) : ℕ), hj⟩ : Fin n) = j := by
    ext; simp
  simp only [initTableau]
  rw [dif_pos hi, dif_pos hj, e1, e2]

lemma init_apply_b (c : Fin n → ℚ) (a : Fin m → Fin n → ℚ) (b : Fin m → ℚ)
    (i : Fin m) :
    initTableau c a b i.castSucc (Fin.last n) = b i := by
  have hi : ((i.castSucc : Fin (m + 1)) : ℕ) < m := by simp
  have hj : ¬((Fin.last n : Fin (n + 1)) : ℕ) < n := by simp
  have e1 : (⟨((i.castSucc : Fin (m + 1)) : ℕ), hi⟩ : Fin m) = i := by
    ext; simp
  simp only [initTableau]
  rw [dif_pos hi, dif_neg hj, e1]

lemma init_apply_negc (c : Fin n → ℚ) (a : Fin m → Fin n → ℚ) (b : Fin m → ℚ)
    (j : Fin n) :
    initTableau c a b (Fin.last m) j.castSucc = -c j := by
  have hi : ¬((Fin.last m : Fin (m + 1)) : ℕ) < m := by simp
  have hj : ((j.castSucc : Fin (n + 1)) : ℕ) < n := by simp
  have e2 : (⟨((j.castSucc : Fin (n + 1)) : ℕ), hj⟩ : Fin n) = j := by
    ext; simp
  simp only [initTableau]
  rw [dif_neg hi, dif_pos hj, e2]

lemma init_apply_corner (c : Fin n → ℚ) (a : Fin m → Fin n → ℚ)
    (b : Fin m → ℚ) :
    initTableau c a b (Fin.last m) (Fin.last n) = 0 := by
  have hi : ¬((Fin.last m : Fin (m + 1)) : ℕ) < m := by simp
  have hj : ¬((Fin.last n : Fin (n + 1)) : ℕ) < n := by simp
  simp only [initTableau]
  rw [dif_neg hi, dif_neg hj]

/-- In the freshly constructed tableau, a variable with a non-zero
objective coefficient is never read with a non-zero value: its column has
the non-zero entry `-c j` in the objective row, so the scan either fails
or lands on the objective row, whose RHS cell is 0. -/
lemma extract_init_zero (c : Fin n → ℚ) (a : Fin m → Fin n → ℚ)
    (b : Fin m → ℚ) (j : Fin n) (hc : c j ≠ 0) :
    extract_solution (initTableau c a b) j = 0 := by
  cases hres : scanRows (initTableau c a b) j.castSucc
      (List.finRange (m + 1)) none with
  | none => simp [extract_solution, hres]
  | some o =>
    cases o with
    | none => simp [extract_solution, hres]
    | some i =>
      obtain ⟨-, h1, hz⟩ := (scanRows_none_some (initTableau c a b)
        j.castSucc _ (List.nodup_finRange _) i).mp hres
      by_cases hi : i = Fin.last m
      · subst hi
        simp [extract_solution, hres, init_apply_corner]
      · have hobj := hz (Fin.last m) (List.mem_finRange _)
          (fun he => hi he.symm)
        rw [init_apply_negc] at hobj
        exact absurd (neg_eq_zero.mp hobj) hc

/-- At construction the objective value read at the extracted basic
solution is zero. -/
lemma dotProd_extract_init (c : Fin n → ℚ) (a : Fin m → Fin n → ℚ)
    (b : Fin m → ℚ) :
    dotProd c (extract_solution (initTableau c a b)) = 0 := by
  apply Finset.sum_eq_zero
  intro j _
  by_cases hc : c j = 0
  · rw [hc, zero_mul]
  · rw [extract_init_zero c a b j hc, mul_zero]

/-! The loop only changes the tableau, and more fuel never changes a
result that was reached before the fuel ran out. -/

lemma stateOf_simplexLoop :
    ∀ (fuel : ℕ) (s : SolveState m n),
      (stateOf (simplexLoop fuel s)).a = s.a ∧
      (stateOf (simplexLoop fuel s)).b = s.b := by
  intro fuel
  induction fuel with
  | zero => intro s; exact ⟨rfl, rfl⟩
  | succ f ih =>
    intro s
    simp only [simplexLoop]
    by_cases hopt : isOptimal s.tab
    · simp [hopt, stateOf]
    · simp only [hopt, Bool.false_eq_true, if_false]
      cases hcol : find_pivot_column s.tab with
      | none => simp [stateOf]
      | some k =>
        cases hrow : find_pivot_row s.tab k with
        | none => simp [hrow, stateOf]
        | some r =>
          cases hpiv : pivot_operation s.tab r.castSucc k with
          | none => simp [hrow, hpiv, stateOf]
          | some t2 =>
            simp only [hrow, hpiv]
            exact ih ⟨s.a, s.b, t2⟩

lemma simplexLoop_mono :
    ∀ (f : ℕ) (g : ℕ) (s : SolveState m n), f ≤ g →
      isFuelOut (simplexLoop f s) = false →
      simplexLoop g s = simplexLoop f s := by
  intro f
  induction f with
  | zero =>
    intro g s _ hnf
    simp [simplexLoop, isFuelOut] at hnf
  | succ f ih =>
    intro g s hle hnf
    obtain ⟨g2, rfl⟩ : ∃ g2, g = g2 + 1 := ⟨g - 1, by omega⟩
    have hle2 : f ≤ g2 := by omega
    simp only [simplexLoop] at hnf ⊢
    by_cases hopt : isOptimal s.tab
    · simp [hopt]
    · simp only [hopt, Bool.false_eq_true, if_false] at hnf ⊢
      cases hcol : find_pivot_column s.tab with
      | none => rfl
      | some k =>
        simp only [hcol] at hnf
        cases hrow : find_pivot_row s.tab k with
        | none => simp only [hrow]
        | some r =>
          simp only [hrow] at hnf ⊢
          cases hpiv : pivot_operation s.tab r.castSucc k with
          | none => simp only [hpiv]
          | some t2 =>
            simp only [hpiv] at hnf ⊢
            exact ih g2 ⟨s.a, s.b, t2⟩ hle2 hnf

lemma simplex_solver_congr (f g : ℕ) (c : Fin n → ℚ) (a : Fin m → Fin n → ℚ)
    (b : Fin m → ℚ)
    (h : simplexLoop f (⟨a, b, initTableau c a b⟩ : SolveState m n) =
      simplexLoop g ⟨a, b, initTableau c a b⟩) :
    simplex_solver f c a b = simplex_solver g c a b := by
  unfold simplex_solver
  rw [h]

/-! The run on the degenerate concrete scenario. -/

/-- Initial tableau of the degenerate concrete scenario. -/
def t9a : Tableau 3 7 :=
  ![![-1, 1, -1, -1, 1, 0, 0, 8],
    ![2, 4, 0, 0, 0, 1, 0, 0],
    ![0, 0, 1, 1, 0, 0, 1, 3],
    ![-2, 3, 0, 5, 0, 0, 0, 0]]

/-- One half as a normalized numerator-denominator pair, so that scans of
the pivoted tableau below stay kernel-computable. -/
def half : ℚ := Rat.mk' 1 2

lemma half_eq : half = 1 / 2 := by
  norm_num [half, Rat.mk'_eq_divInt, Rat.divInt_eq_div]

/-- Tableau of the degenerate concrete scenario after its single pivot
(at row 1, column 0, pivot entry 2). -/
def t9b : Tableau 3 7 :=
  ![![0, 3, -1, -1, 1, half, 0, 8],
    ![1, 2, 0, 0, 0, half, 0, 0],
    ![0, 0, 1, 1, 0, 0, 1, 3],
    ![0, 7, 0, 5, 0, 1, 0, 0]]

lemma init9 : initTableau c9 a9 b9 = t9a := by decide

lemma pivot9 : pivot_operation t9a ((1 : Fin 3).castSucc) 0 = some t9b := by
  rw [pivot_operation, if_neg (by decide)]
  refine congrArg some ?_
  funext i j
  fin_cases i <;> fin_cases j <;>
    norm_num [t9a, t9b, half_eq, Fin.ext_iff, Fin.coe_castSucc]

lemma loop9 :
    simplexLoop 2 (⟨a9, b9, initTableau c9 a9 b9⟩ : SolveState 3 7) =
      .done ⟨a9, b9, t9b⟩ := by
  rw [init9,
    loop_step_pivot _ 0 1 t9b 1 (by decide) (by decide) (by decide) pivot9,
    loop_step_done _ 0 (by decide)]

lemma solver9 :
    simplex_solver 2 c9 a9 b9 = .ok (extract_solution t9b) 0 := by
  have h := solver_of_loop 2 c9 a9 b9 ⟨a9, b9, t9b⟩ loop9
  rw [h]
  congr 1

/-! The pivot performed on the objective-row invariant counterexample. -/

/-- Initial tableau of the objective-row invariant counterexample. -/
def tC6a : Tableau 1 1 := ![![1, 1], ![-1, 0]]

/-- The same tableau after the pivot at row 0, column 0. -/
def tC6b : Tableau 1 1 := ![![1, 1], ![0, 1]]

lemma initC6 : initTableau cC6 aC6 bC6 = tC6a := by decide

lemma pivotC6 : pivot_operation tC6a 0 0 = some tC6b := by
  rw [pivot_operation, if_neg (by decide)]
  refine congrArg some ?_
  funext i j
  fin_cases i <;> fin_cases j <;> norm_num [tC6a, tC6b]

/-! The claims. -/

/-- C1: evaluation at the failing input.  On c = [1, -1], A = [[1, 0]],
b = [1] the solver returns Some with solution [1, 1] and objective value
1, yet c · [1, 1] = 0, so the returned objective value does not equal the
dot product of c with the returned solution: the extraction scan reads
column 1 as basic through the objective row. -/
theorem C1_objective_value_mismatch :
    (simplex_solver 3 cC1 aC1 bC1).okSol = some (![1, 1], 1) ∧
    dotProd cC1 ![1, 1] = 0 ∧ (1 : ℚ) ≠ 0 := by
  refine ⟨?_, ?_, by norm_num⟩
  · have he : extract_solution tC1b = ![1, 1] := by decide
    rw [solverC1]
    simp [SolverOut.okSol, he]
  · norm_num [dotProd, cC1, Fin.sum_univ_two]

/-- C2: evaluation at the failing input.  On the tableau with constraint
row [0, 5] and objective row [1, 7], column 0 has no non-zero entry among
the constraint rows, so the claim (and the spec-worded extraction rule)
give the value 0; `extract_solution` scans the objective row as well,
takes its 1 as the basic unit entry and returns 7. -/
theorem C2_extraction_scans_objective_row :
    extract_solution tC2 0 = 7 ∧ specExtractValueConstraint tC2 0 = 0 ∧
    (7 : ℚ) ≠ 0 := by
  refine ⟨by decide, by decide, by norm_num⟩

/-- C3: evaluation at the failing input.  On the tableau whose objective
row is [0, -1] (the -1 being the last, objective-value entry) the claim
mandates no pivot column, since no entry other than the last is negative;
`find_pivot_column` scans the whole row and returns the last column. -/
theorem C3_column_scan_includes_last_entry :
    find_pivot_column tC3 = some 1 ∧
    specPivotColumnExcludingLast tC3 = none := by
  exact ⟨by decide, by decide⟩

/-- C4: pivot row selection considers exactly the constraint rows with a
strictly positive entry in the entering column and returns the first row
attaining the minimum quotient RHS/entry; it returns none precisely when
no constraint row has a strictly positive entry. -/
theorem C4_pivot_row_rule :
    ∀ (t : Tableau m n) (k : Fin (n + 1)),
      (find_pivot_row t k = none ↔ ∀ i : Fin m, ¬0 < t i.castSucc k) ∧
      (∀ r : Fin m, find_pivot_row t k = some r ↔
        0 < t r.castSucc k ∧
        (∀ i : Fin m, 0 < t i.castSucc k →
          t r.castSucc (Fin.last n) / t r.castSucc k ≤
            t i.castSucc (Fin.last n) / t i.castSucc k) ∧
        (∀ i : Fin m, i < r → 0 < t i.castSucc k →
          t r.castSucc (Fin.last n) / t r.castSucc k <
            t i.castSucc (Fin.last n) / t i.castSucc k)) :=
  fun t k =>
    ⟨find_pivot_row_none_iff t k, fun r => find_pivot_row_some_iff t k r⟩

/-- C4 witness: on the tableau with rows [2, 4], [1, 1] (and objective
row [0, 0]) and entering column 0, the quotients are 2 and 1, and row 1
is selected. -/
theorem C4_pivot_row_rule_witness : find_pivot_row tC4w 0 = some 1 :=
  ((C4_pivot_row_rule tC4w 0).2 1).mpr (by
    refine ⟨by norm_num [tC4w], ?_, ?_⟩
    · intro i hi
      fin_cases i <;> norm_num [tC4w, Fin.last] at hi ⊢
    · intro i hlt hi
      fin_cases i <;> norm_num [tC4w, Fin.last] at hlt hi ⊢)

/-- C5: when an entering column has been selected (the tableau being
non-optimal) and no constraint row has a strictly positive entry in it,
the loop stops at once reporting unboundedness with the state untouched,
and the solver surfaces this as the `None` return. -/
theorem C5_unbounded_stops_immediately :
    (∀ (s : SolveState m n) (k : Fin (n + 1)) (fuel : ℕ),
      isOptimal s.tab = false →
      find_pivot_column s.tab = some k →
      (∀ i : Fin m, ¬0 < s.tab i.castSucc k) →
      simplexLoop (fuel + 1) s = .unbounded s) ∧
    (∀ (fuel : ℕ) (c : Fin n → ℚ) (a : Fin m → Fin n → ℚ) (b : Fin m → ℚ)
      (s2 : SolveState m n),
      simplexLoop fuel ⟨a, b, initTableau c a b⟩ = .unbounded s2 →
      simplex_solver fuel c a b = SolverOut.none) := by
  constructor
  · intro s k fuel h1 h2 h3
    have hrow : find_pivot_row s.tab k = none :=
      (find_pivot_row_none_iff s.tab k).mpr h3
    simp [simplexLoop, h1, h2, hrow]
  · intro fuel c a b s2 h
    unfold simplex_solver
    rw [h]

/-- C5 witness: on c = [1], A = [[-1]], b = [1] the entering column 0 has
no positive constraint entry and the solver returns None. -/
theorem C5_unbounded_stops_immediately_witness :
    simplex_solver 1 cU aU bU = SolverOut.none :=
  C5_unbounded_stops_immediately.2 1 cU aU bU
    ⟨aU, bU, initTableau cU aU bU⟩
    (C5_unbounded_stops_immediately.1 ⟨aU, bU, initTableau cU aU bU⟩ 0 0
      (by decide) (by decide) (by decide))

/-- C6: counterexample.  On c = [1], A = [[1]], b = [1] the pivot at
(0, 0) — the very pivot the solver performs — leaves the objective row's
last entry at 1, while the negation of the objective value at the basic
solution encoded by the tableau is -1: after a pivot the last entry is
not the negated objective value. -/
theorem C6_counterexample :
    (pivot_operation (initTableau cC6 aC6 bC6) 0 0).map
        (fun t => (t (Fin.last 1) (Fin.last 1),
          -dotProd cC6 (extract_solution t))) = some (1, -1) ∧
    (1 : ℚ) ≠ -1 := by
  constructor
  · rw [initC6, pivotC6]
    have h1 : tC6b (Fin.last 1) (Fin.last 1) = 1 := by decide
    have h2 : extract_solution tC6b = ![1] := by decide
    simp only [Option.map_some', h1, h2]
    norm_num [dotProd, cC6]
  · norm_num

/-- C6 amended: after tableau construction the final row holds the
negated objective coefficients, and its last entry equals the negation of
the objective value c · x at the basic solution extracted from the
tableau (both sides are zero); pivots do not preserve the stated
negation. -/
theorem C6_construction_objective_row :
    ∀ (c : Fin n → ℚ) (a : Fin m → Fin n → ℚ) (b : Fin m → ℚ),
      (∀ j : Fin n, initTableau c a b (Fin.last m) j.castSucc = -c j) ∧
      initTableau c a b (Fin.last m) (Fin.last n) =
        -dotProd c (extract_solution (initTableau c a b)) := by
  intro c a b
  refine ⟨fun j => init_apply_negc c a b j, ?_⟩
  rw [dotProd_extract_init, neg_zero, init_apply_corner]

/-- C7: for a non-zero pivot entry, the pivot step maps row r to its
normalization by the pivot entry (the pivot position becoming exactly 1),
and every other row, the objective row included, to itself minus its old
column-k entry times the normalized row r, zeroing column k outside
row r. -/
theorem C7_pivot_rowwise :
    ∀ (t : Tableau m n) (r : Fin (m + 1)) (k : Fin (n + 1)), t r k ≠ 0 →
      ∃ t2, pivot_operation t r k = some t2 ∧
        (∀ j, t2 r j = t r j / t r k) ∧
        t2 r k = 1 ∧
        (∀ i, i ≠ r → ∀ j, t2 i j = t i j - t i k * t2 r j) ∧
        (∀ i, i ≠ r → t2 i k = 0) := by
  intro t r k h
  refine ⟨_, by rw [pivot_operation, if_neg h], ?_, ?_, ?_, ?_⟩
  · intro j
    simp
  · simp [div_self h]
  · intro i hi j
    simp [hi]
  · intro i hi
    simp [hi, div_self h]

/-- C7 witness: the pivot on the tableau [[2, 4], [1, 3]] at (0, 0). -/
theorem C7_pivot_rowwise_witness :
    ∃ t2, pivot_operation tC7 0 0 = some t2 ∧
      (∀ j, t2 0 j = tC7 0 j / tC7 0 0) ∧
      t2 0 0 = 1 ∧
      (∀ i, i ≠ 0 → ∀ j, t2 i j = tC7 i j - tC7 i 0 * t2 0 j) ∧
      (∀ i, i ≠ 0 → t2 i 0 = 0) :=
  C7_pivot_rowwise tC7 0 0 (by decide)

/-- C8: the pivot step aborts exactly when the pivot entry is zero; a
non-zero pivot entry always yields a new tableau. -/
theorem C8_zero_pivot_aborts :
    ∀ (t : Tableau m n) (r : Fin (m + 1)) (k : Fin (n + 1)),
      pivot_operation t r k = none ↔ t r k = 0 := by
  intro t r k
  unfold pivot_operation
  by_cases h : t r k = 0
  · simp [h]
  · simp [h]

/-- C8 witness: the pivot on the zero tableau aborts. -/
theorem C8_zero_pivot_aborts_witness : pivot_operation tC8 0 0 = none :=
  (C8_zero_pivot_aborts tC8 0 0).mpr (by decide)

/-- C9: on objective [2, -3, 0, -5, 0, 0, 0], the given constraint matrix
and RHS [8, 0, 3], the solver terminates — any fuel of at least 2 pivots
yields the same successful result — and the solution [0, 0, 0, 0, 8, 0, 3]
is entry-wise non-negative. -/
theorem C9_terminates_nonneg :
    ∀ fuel : ℕ, 2 ≤ fuel →
      (simplex_solver fuel c9 a9 b9).okSol = some (sol9, 0) ∧
      ∀ j, 0 ≤ sol9 j := by
  intro fuel hf
  have hmono := simplexLoop_mono 2 fuel
    (⟨a9, b9, initTableau c9 a9 b9⟩ : SolveState 3 7) hf
    (by rw [loop9]; rfl)
  have hsol : simplex_solver fuel c9 a9 b9 = simplex_solver 2 c9 a9 b9 :=
    simplex_solver_congr fuel 2 c9 a9 b9 hmono
  rw [hsol, solver9]
  constructor
  · have he : extract_solution t9b = sol9 := by decide
    simp [SolverOut.okSol, he]
  · decide

/-- C9 witness: the run itself with fuel 2. -/
theorem C9_terminates_nonneg_witness :
    (simplex_solver 2 c9 a9 b9).okSol = some (sol9, 0) ∧
    ∀ j, 0 ≤ sol9 j :=
  C9_terminates_nonneg 2 (le_refl 2)

/-- C10: the solver copies c, A and b into a fresh tableau — the
constraint block and RHS column of the constructed tableau agree with the
inputs — and the loop never touches the caller's A and b: whatever the
outcome, the final state still carries the original A and b. -/
theorem C10_inputs_preserved :
    ∀ (fuel : ℕ) (c : Fin n → ℚ) (a : Fin m → Fin n → ℚ) (b : Fin m → ℚ),
      (stateOf (simplexLoop fuel ⟨a, b, initTableau c a b⟩)).a = a ∧
      (stateOf (simplexLoop fuel ⟨a, b, initTableau c a b⟩)).b = b ∧
      (∀ (i : Fin m) (j : Fin n),
        initTableau c a b i.castSucc j.castSucc = a i j) ∧
      (∀ i : Fin m, initTableau c a b i.castSucc (Fin.last n) = b i) := by
  intro fuel c a b
  obtain ⟨h1, h2⟩ := stateOf_simplexLoop fuel ⟨a, b, initTableau c a b⟩
  exact ⟨h1, h2, fun i j => init_apply_a c a b i j,
    fun i => init_apply_b c a b i⟩
